import Mathlib

/-!
Verification development for the DocuSense client (cybersecurity-chatbot).

The repository is a single-page client application.  The parts embedded
here, translated from the TypeScript source:

* the upload/status poll loop `pollProcessingStatus` and the upload
  initialisation `handleFileUpload` (src/frontend/components/Login.tsx,
  FileUpload component; the GlobalDocumentUpload variant in
  src/unnamed/part_001 is structurally identical),
* the EmployeeDashboard state handlers `createNewChat`, `deleteSession`,
  `loadDocuments` (src/frontend/components/EmployeeDashboard.tsx),
* the DocumentList delete handler `handleDelete`
  (src/frontend/components/DocumentList.tsx),
* the Sidebar session filter `filteredSessions` (src/unnamed/part_002).

Asynchronous behaviour is embedded by explicit state passing: the poll
loop consumes a stream of fetch results (one per attempt index) and
returns the whole observable effect of the loop — the successive values
written to the upload-status mapping entry, the number of fetches
performed, the terminal outcome, the success-callback invocation count
and the grace delay before the entry is removed on success.
-/

namespace DocuSense

/-- Upload/processing status values of the client
(`'uploading' | 'processing' | 'ready' | 'error'`). -/
inductive Status
  | uploading
  | processing
  | ready
  | error
deriving DecidableEq, Repr

/-- Optional metadata attached to a processing-status response
(fields used by the view: `file_size`, `ownership`). -/
structure Metadata where
  file_size : Option Nat
  ownership : Option String
deriving DecidableEq, Repr

/-- A processing-status record as stored in the `uploadingFiles` mapping.
`metadata` appears in the FileUpload variant, `filename` in the
GlobalDocumentUpload variant; both are spread-preserved by every partial
update, so one record type covers both components. -/
structure ProcessingStatus where
  document_id : String
  status : Status
  message : String
  metadata : Option Metadata
  filename : Option String
deriving DecidableEq, Repr

/-- Result of one status fetch: `exn` embeds a thrown/rejected request,
`ok s` a resolved response. -/
inductive FetchResult
  | exn
  | ok (s : ProcessingStatus)
deriving DecidableEq, Repr

/-- How one run of the poll loop ended. -/
inductive PollOutcome
  | completedReady
  | stoppedOnError
  | timedOut
  | fetchFailed
deriving DecidableEq, Repr

/-- The observable effect of one run of the poll loop on its own
mapping entry.

`snapshots` is the sequence of values successively written to the entry
(each `setUploadingFiles` for this key, in order); `fetches` counts the
status requests issued (a request that throws still counts); on the
`ready` path the entry is kept for `graceDelay` time units and then
removed (`finalEntry = none`) while the success callback runs
`callbackCount` times; on every other path the entry remains
(`finalEntry = some _`) and the callback never runs. -/
structure PollResult where
  snapshots : List ProcessingStatus
  fetches : Nat
  outcome : PollOutcome
  callbackCount : Nat
  graceDelay : Option Nat
  finalEntry : Option ProcessingStatus
deriving DecidableEq, Repr

/-- The `maxAttempts` constant of `pollProcessingStatus`. -/
def maxAttempts : Nat := 60

/-- Grace period (in the source, 3000 ms = 3 time units of the spec)
between observing `ready` and removing the entry / firing the callback. -/
def readyGracePeriod : Nat := 3

/-- Timeout message written when the attempt bound is exhausted
(Login.tsx line 253). -/
def timeoutMessage : String := "Timeout: Le traitement sécurisé prend trop de temps"

/-- Message written when a status fetch throws (Login.tsx line 265). -/
def pollErrorMessage : String := "Erreur de communication sécurisée avec le serveur"

/-- The timeout update `{...prev[fileId], status: 'error', message: timeout}`:
spread of the previous entry overriding only `status` and `message`. -/
def timeoutUpdate (prev : ProcessingStatus) : ProcessingStatus :=
  { prev with status := Status.error, message := timeoutMessage }

/-- The catch-branch update `{...prev[fileId], status: 'error', message: ...}`
performed when a status fetch throws. -/
def fetchErrorUpdate (prev : ProcessingStatus) : ProcessingStatus :=
  { prev with status := Status.error, message := pollErrorMessage }

/-- One run of the inner `poll` closure of `pollProcessingStatus`.

`get k` is the result of the `k`-th status fetch for this document id
(the loop is strictly sequential, so indexing fetches by attempt number
is faithful).  `entry` is the current value of the mapping entry —
initially the `processing` record written by `handleFileUpload` after the
upload response.  `fuel` is the number of fetch attempts still allowed:
the source keeps `attempts` (starting at 0) and, after a non-terminal
fetch, increments it and continues only while `attempts < maxAttempts`;
so `fuel = maxAttempts - attempts` and a non-terminal fetch with
`fuel ≤ 1` takes the timeout branch. -/
def pollGo (get : Nat → FetchResult) (k : Nat) (entry : ProcessingStatus)
    (fuel : Nat) : PollResult :=
  match get k with
    | FetchResult.exn =>
        { snapshots := [fetchErrorUpdate entry]
          fetches := 1
          outcome := PollOutcome.fetchFailed
          callbackCount := 0
          graceDelay := none
          finalEntry := some (fetchErrorUpdate entry) }
    | FetchResult.ok s =>
        if s.status = Status.ready then
          { snapshots := [s]
            fetches := 1
            outcome := PollOutcome.completedReady
            callbackCount := 1
            graceDelay := some readyGracePeriod
            finalEntry := none }
        else if s.status = Status.error then
          { snapshots := [s]
            fetches := 1
            outcome := PollOutcome.stoppedOnError
            callbackCount := 0
            graceDelay := none
            finalEntry := some s }
        else
          match fuel with
          | 0 =>
              { snapshots := [s, timeoutUpdate s]
                fetches := 1
                outcome := PollOutcome.timedOut
                callbackCount := 0
                graceDelay := none
                finalEntry := some (timeoutUpdate s) }
          | 1 =>
              { snapshots := [s, timeoutUpdate s]
                fetches := 1
                outcome := PollOutcome.timedOut
                callbackCount := 0
                graceDelay := none
                finalEntry := some (timeoutUpdate s) }
          | Nat.succ (Nat.succ m) =>
              let r := pollGo get (k + 1) s (Nat.succ m)
              { r with snapshots := s :: r.snapshots, fetches := r.fetches + 1 }
termination_by fuel

/-- Embedding of `pollProcessingStatus`: run the poll loop from the `processing`
entry written after a successful upload, with the full attempt budget. -/
def pollLoop (get : Nat → FetchResult) (entry : ProcessingStatus) : PollResult :=
  pollGo get 0 entry maxAttempts

/-! ## Upload lifecycle (`handleFileUpload`) -/

/-- Result of the upload request itself: the request either throws
(`failed`, carrying the message the catch branch would display) or
resolves with `{document_id, message}`. -/
inductive UploadResult
  | failed (message : String)
  | accepted (documentId : String) (message : String)
deriving DecidableEq, Repr

/-- The first entry written for a fresh upload
(`status: 'uploading'`, `document_id` set to the local file id). -/
def uploadInitEntry (fileId : String) : ProcessingStatus :=
  { document_id := fileId
    status := Status.uploading
    message := "Téléchargement sécurisé en cours..."
    metadata := none
    filename := none }

/-- The entry written after the upload response, before polling starts. -/
def processingEntry (documentId message : String) : ProcessingStatus :=
  { document_id := documentId
    status := Status.processing
    message := message
    metadata := none
    filename := none }

/-- The entry written when the upload request throws. -/
def uploadErrorEntry (fileId message : String) : ProcessingStatus :=
  { document_id := fileId
    status := Status.error
    message := message
    metadata := none
    filename := none }

/-- Every value successively taken by one upload's mapping entry across
the whole `handleFileUpload` lifecycle: the `uploading` record, then
either the catch-branch `error` record (upload request threw) or the
`processing` record followed by the writes of the poll loop. -/
def uploadTrace (fileId : String) (up : UploadResult)
    (get : Nat → FetchResult) : List ProcessingStatus :=
  match up with
  | UploadResult.failed msg =>
      [uploadInitEntry fileId, uploadErrorEntry fileId msg]
  | UploadResult.accepted docId msg =>
      uploadInitEntry fileId :: processingEntry docId msg ::
        (pollLoop get (processingEntry docId msg)).snapshots

/-- The status values the view observes for one upload, in order. -/
def statusTrace (fileId : String) (up : UploadResult)
    (get : Nat → FetchResult) : List Status :=
  (uploadTrace fileId up get).map ProcessingStatus.status

/-! ## The upload-status mapping

`uploadingFiles` is a plain JS object keyed by the locally generated
file id; `setUploadingFiles(prev => ({...prev, [fileId]: v}))` overwrites
or adds one key, and the success path deletes one key.  Embedded as an
association list with last-write-wins semantics. -/

/-- The upload-status mapping `{[key: string]: ProcessingStatus}`. -/
def UploadMap : Type := List (String × ProcessingStatus)

/-- Read the entry under a key (JS `prev[fileId]`). -/
def lookupEntry (m : UploadMap) (key : String) : Option ProcessingStatus :=
  match m with
  | [] => none
  | (k, v) :: rest => if k = key then some v else lookupEntry rest key

/-- Write `{...prev, [key]: v}` — overwrite the entry under `key`
(or add it if absent). -/
def setEntry (m : UploadMap) (key : String) (v : ProcessingStatus) : UploadMap :=
  match m with
  | [] => [(key, v)]
  | (k, w) :: rest =>
      if k = key then (k, v) :: rest else (k, w) :: setEntry rest key v

/-- Apply `delete newState[key]` — remove the entry under `key`. -/
def removeEntry (m : UploadMap) (key : String) : UploadMap :=
  match m with
  | [] => []
  | (k, w) :: rest =>
      if k = key then removeEntry rest key else (k, w) :: removeEntry rest key

/-! ## Local file ids

`handleFileUpload` keys each upload by
``const fileId = `${file.name}-${Date.now()}`;``. -/

/-- Decimal digit character, for `d < 10`. -/
def digitChar (d : Nat) : Char := Char.ofNat (48 + d)

/-- Decimal rendering of a natural number, as JS renders the
(non-negative integer) value of `Date.now()` in a template literal. -/
def natDecimal (n : Nat) : List Char :=
  if _h : n < 10 then [digitChar n]
  else natDecimal (n / 10) ++ [digitChar (n % 10)]
decreasing_by exact Nat.div_lt_self (by omega) (by omega)

/-- The locally generated upload key: name, a hyphen, then the decimal
timestamp (the template literal built from `file.name` and `Date.now()`). -/
def mkFileId (name : String) (timestamp : Nat) : String :=
  name ++ "-" ++ String.mk (natDecimal timestamp)

/-! ## EmployeeDashboard state and handlers -/

/-- A chat session as listed by the client. -/
structure ChatSession where
  id : String
  title : String
  preview : Option String
  message_count : Nat
  updated_at : String
deriving DecidableEq, Repr

/-- A chat message (only its identity matters to the embedded handlers). -/
structure ChatMessage where
  id : String
  content : String
deriving DecidableEq, Repr

/-- A document as listed by the client. -/
structure Document where
  document_id : String
  filename : String
  chunks : Nat
  total_length : Nat
  status : Status
deriving DecidableEq, Repr

/-- The EmployeeDashboard state touched by the embedded handlers. -/
structure DashState where
  sessions : List ChatSession
  currentSession : Option ChatSession
  messages : List ChatMessage
  documents : List Document
deriving DecidableEq, Repr

/-- Embedding of `createNewChat` after `apiService.createChatSession()` resolves with
`newSession`: prepend it to the local list and select it.  No fetch of
the session list is performed. -/
def createNewChat (st : DashState) (newSession : ChatSession) : DashState :=
  { st with sessions := newSession :: st.sessions
            currentSession := some newSession
            messages := [] }

/-- Embedding of `deleteSession` after `apiService.deleteChatSession(sessionId)`
resolves: filter the session out of the local list and, if it was the
current session, clear the current session and the message list.  No
fetch of the session list is performed. -/
def deleteSession (st : DashState) (sessionId : String) : DashState :=
  let st1 := { st with sessions := st.sessions.filter (fun s => s.id != sessionId) }
  match st.currentSession with
  | some cur =>
      if cur.id = sessionId then
        { st1 with currentSession := none, messages := [] }
      else st1
  | none => st1

/-- Embedding of `loadDocuments`: replace the document list wholesale with the
response of a fresh full fetch. -/
def loadDocuments (st : DashState) (fetched : List Document) : DashState :=
  { st with documents := fetched }

/-! ## DocumentList delete handler (`handleDelete`) -/

/-- Outcome of the `apiService.deleteDocument` call. -/
inductive ApiOutcome
  | success
  | failure
deriving DecidableEq, Repr

/-- Evaluate `new Set(prev).add(id)` — the deleting set with `id` added. -/
def setAdd (s : List String) (id : String) : List String :=
  if id ∈ s then s else s ++ [id]

/-- Evaluate `newSet.delete(id)` — the deleting set with `id` removed. -/
def setRemove (s : List String) (id : String) : List String :=
  s.filter (fun x => x != id)

/-- The observable effect of one `handleDelete` run:
the deleting set while the API call is in flight, the deleting set after
the `finally` block, and how many times `onDocumentDeleted` ran. -/
structure DeleteRun where
  duringCall : List String
  finalSet : List String
  callbackCalls : Nat
deriving DecidableEq, Repr

/-- Embedding of `handleDelete(documentId)` of DocumentList: if the user confirms, add
the id to `deletingIds`, call the API, invoke `onDocumentDeleted` only on
success, and in `finally` remove the id again, whether the call
succeeded or threw. -/
def handleDelete (confirmed : Bool) (deleting0 : List String)
    (documentId : String) (outcome : ApiOutcome) : DeleteRun :=
  if confirmed then
    let during := setAdd deleting0 documentId
    { duringCall := during
      finalSet := setRemove during documentId
      callbackCalls := match outcome with
        | ApiOutcome.success => 1
        | ApiOutcome.failure => 0 }
  else
    { duringCall := deleting0, finalSet := deleting0, callbackCalls := 0 }

/-! ## Sidebar session filter (`filteredSessions`) -/

/-- Embedding of JS `String.prototype.toLowerCase` (per-character). -/
def toLowerCase (s : String) : String := String.mk (s.data.map Char.toLower)

/-- Embedding of JS `String.prototype.includes`: `needle` occurs as a
contiguous substring of `hay`. -/
def strContains (hay needle : List Char) : Bool :=
  needle.isPrefixOf hay ||
    match hay with
    | [] => false
    | _ :: t => strContains t needle

/-- Evaluate `a.toLowerCase().includes(b.toLowerCase())` — case-insensitive
substring test used by the sidebar search. -/
def containsCI (hay needle : String) : Bool :=
  strContains (toLowerCase hay).data (toLowerCase needle).data

/-- The Sidebar filter predicate:
`session.title.toLowerCase().includes(searchTerm.toLowerCase()) ||
 session.preview?.toLowerCase().includes(searchTerm.toLowerCase())`.
Optional chaining on an absent `preview` yields `undefined`, which is
falsy, so an absent preview contributes `false`. -/
def matchesSearch (searchTerm : String) (session : ChatSession) : Bool :=
  containsCI session.title searchTerm ||
    match session.preview with
    | some p => containsCI p searchTerm
    | none => false

/-- The `filteredSessions` computation of the Sidebar. -/
def filteredSessions (sessions : List ChatSession) (searchTerm : String) :
    List ChatSession :=
  sessions.filter (fun session => matchesSearch searchTerm session)

/-- A fetch result that lets the loop continue: a resolved response whose
status is neither `ready` nor `error` (the loop's two stop conditions). -/
def isNonTerminalOk : FetchResult → Prop
  | FetchResult.exn => False
  | FetchResult.ok s => s.status ≠ Status.ready ∧ s.status ≠ Status.error

/-- The status endpoint reports the processing state of a stored
`Document`, whose status domain is `{processing, ready, error}`; the
`uploading` value exists only in locally written entries, never in a
fetched response. -/
def responsesWellFormed (get : Nat → FetchResult) : Prop :=
  ∀ i s, get i = FetchResult.ok s → s.status ≠ Status.uploading

/-- A file handed to `handleFileUpload` (identity = name and content;
only the name enters the locally generated key). -/
structure UploadFile where
  name : String
  content : String
deriving DecidableEq, Repr

/-! ## Concrete fixtures for witnesses and counterexamples -/

/-- A non-terminal status response. -/
def demoProcessing : ProcessingStatus :=
  { document_id := "doc123"
    status := Status.processing
    message := "Document en cours de traitement"
    metadata := none
    filename := none }

/-- A `ready` status response. -/
def demoReady : ProcessingStatus :=
  { document_id := "doc123"
    status := Status.ready
    message := "Document prêt"
    metadata := none
    filename := none }

/-- A server that reports `processing` on every poll. -/
def demoGetAlwaysProcessing : Nat → FetchResult :=
  fun _ => FetchResult.ok demoProcessing

/-- A server that reports `processing` once, then `ready`. -/
def demoGetReadyAt1 : Nat → FetchResult :=
  fun k => if k = 0 then FetchResult.ok demoProcessing else FetchResult.ok demoReady

/-- A server whose first status request throws. -/
def demoGetExnAt0 : Nat → FetchResult :=
  fun _ => FetchResult.exn

/-- A server that reports `ready` immediately. -/
def demoGetReadyAt0 : Nat → FetchResult :=
  fun _ => FetchResult.ok demoReady

def sessionAlpha : ChatSession :=
  { id := "s-alpha"
    title := "Analyse ISO 27001"
    preview := some "Quelles sont les exigences"
    message_count := 2
    updated_at := "2024-05-01T10:00:00" }

def sessionBeta : ChatSession :=
  { id := "s-beta"
    title := "Nouvelle conversation"
    preview := none
    message_count := 0
    updated_at := "2024-05-01T11:00:00" }

/-- A dashboard whose session list is stale: the server also holds
`sessionAlpha` (created meanwhile from another view), but the client
list is empty. -/
def demoDashStale : DashState :=
  { sessions := []
    currentSession := none
    messages := []
    documents := [] }

/-- A fresh full fetch of the session list right after
`createChatSession` returned `sessionBeta`: the server holds the new
session and `sessionAlpha`. -/
def freshFetchAfterCreate : List ChatSession := [sessionBeta, sessionAlpha]

/-- A dashboard with `sessionAlpha` open and one message displayed. -/
def demoDashActive : DashState :=
  { sessions := [sessionAlpha, sessionBeta]
    currentSession := some sessionAlpha
    messages := [{ id := "m1", content := "Bonjour" }]
    documents := [] }

/-- Two distinct files carrying the same name, dropped together. -/
def fileDocA : UploadFile := { name := "rapport.pdf", content := "version A" }

/-- See `fileDocA`. -/
def fileDocB : UploadFile := { name := "rapport.pdf", content := "version B" }

/-- The `processing` entry written for `fileDocA` after its upload
response. -/
def entryDocA : ProcessingStatus := processingEntry "doc-A" "Upload A accepté"

/-- The `processing` entry written for `fileDocB` after its upload
response. -/
def entryDocB : ProcessingStatus := processingEntry "doc-B" "Upload B accepté"

/-- The millisecond timestamp shared by two uploads started in the same
`forEach` tick. -/
def demoTimestamp : Nat := 1714000000000

/-! ## Step lemmas for the poll loop -/

theorem pollGo_exn {get : Nat → FetchResult} {k : Nat} {entry : ProcessingStatus}
    {fuel : Nat} (h : get k = FetchResult.exn) :
    pollGo get k entry fuel =
      { snapshots := [fetchErrorUpdate entry]
        fetches := 1
        outcome := PollOutcome.fetchFailed
        callbackCount := 0
        graceDelay := none
        finalEntry := some (fetchErrorUpdate entry) } := by
  rw [pollGo, h]

theorem pollGo_ok_ready {get : Nat → FetchResult} {k : Nat} {entry s : ProcessingStatus}
    {fuel : Nat} (h : get k = FetchResult.ok s) (hs : s.status = Status.ready) :
    pollGo get k entry fuel =
      { snapshots := [s]
        fetches := 1
        outcome := PollOutcome.completedReady
        callbackCount := 1
        graceDelay := some readyGracePeriod
        finalEntry := none } := by
  rw [pollGo, h]
  simp [hs]

theorem pollGo_ok_error {get : Nat → FetchResult} {k : Nat} {entry s : ProcessingStatus}
    {fuel : Nat} (h : get k = FetchResult.ok s) (hs : s.status = Status.error) :
    pollGo get k entry fuel =
      { snapshots := [s]
        fetches := 1
        outcome := PollOutcome.stoppedOnError
        callbackCount := 0
        graceDelay := none
        finalEntry := some s } := by
  rw [pollGo, h]
  simp [hs]

theorem pollGo_ok_timeout {get : Nat → FetchResult} {k : Nat} {entry s : ProcessingStatus}
    (h : get k = FetchResult.ok s) (hs1 : s.status ≠ Status.ready)
    (hs2 : s.status ≠ Status.error) :
    pollGo get k entry 1 =
      { snapshots := [s, timeoutUpdate s]
        fetches := 1
        outcome := PollOutcome.timedOut
        callbackCount := 0
        graceDelay := none
        finalEntry := some (timeoutUpdate s) } := by
  rw [pollGo, h]
  simp [hs1, hs2]

theorem pollGo_ok_cont {get : Nat → FetchResult} {k : Nat} {entry s : ProcessingStatus}
    {m : Nat} (h : get k = FetchResult.ok s) (hs1 : s.status ≠ Status.ready)
    (hs2 : s.status ≠ Status.error) :
    pollGo get k entry (m + 2) =
      { pollGo get (k + 1) s (m + 1) with
        snapshots := s :: (pollGo get (k + 1) s (m + 1)).snapshots
        fetches := (pollGo get (k + 1) s (m + 1)).fetches + 1 } := by
  rw [pollGo, h]
  simp [hs1, hs2]

/-! ## Bounds and terminal behaviour of the poll loop -/

/-- The loop never issues more fetches than its remaining budget. -/
theorem pollGo_fetches_le (get : Nat → FetchResult) (k : Nat)
    (entry : ProcessingStatus) (fuel : Nat) (hf : 1 ≤ fuel) :
    (pollGo get k entry fuel).fetches ≤ fuel := by
  induction fuel using Nat.strong_induction_on generalizing k entry with
  | _ fuel ih =>
    cases hget : get k with
    | exn => rw [pollGo_exn hget]; exact hf
    | ok s =>
      by_cases hr : s.status = Status.ready
      · rw [pollGo_ok_ready hget hr]; exact hf
      · by_cases he : s.status = Status.error
        · rw [pollGo_ok_error hget he]; exact hf
        · match fuel, hf with
          | 1, _ =>
            rw [pollGo_ok_timeout hget hr he]
          | Nat.succ (Nat.succ m), _ =>
            rw [pollGo_ok_cont hget hr he]
            have := ih (m + 1) (by omega) (k + 1) s (by omega)
            simpa using by omega

/-- If every fetch in the remaining budget resolves non-terminal, the
loop spends its whole budget and then forces the timeout `error`. -/
theorem pollGo_all_nonTerminal (get : Nat → FetchResult) (k : Nat)
    (entry : ProcessingStatus) (fuel : Nat) (hf : 1 ≤ fuel)
    (h : ∀ j, j < fuel → isNonTerminalOk (get (k + j))) :
    (pollGo get k entry fuel).fetches = fuel ∧
    (pollGo get k entry fuel).outcome = PollOutcome.timedOut ∧
    ∃ e, (pollGo get k entry fuel).finalEntry = some e ∧
      e.status = Status.error ∧ e.message = timeoutMessage := by
  induction fuel using Nat.strong_induction_on generalizing k entry with
  | _ fuel ih =>
    have h0 := h 0 (by omega)
    rw [Nat.add_zero] at h0
    cases hget : get k with
    | exn => rw [hget] at h0; exact absurd h0 (by simp [isNonTerminalOk])
    | ok s =>
      rw [hget] at h0
      obtain ⟨hr, he⟩ := h0
      match fuel, hf with
      | 1, _ =>
        rw [pollGo_ok_timeout hget hr he]
        exact ⟨rfl, rfl, timeoutUpdate s, rfl, rfl, rfl⟩
      | Nat.succ (Nat.succ m), _ =>
        rw [pollGo_ok_cont hget hr he]
        have hrec := ih (m + 1) (by omega) (k + 1) s (by omega) ?_
        · obtain ⟨h1, h2, e, h3, h4, h5⟩ := hrec
          exact ⟨by simp [h1], by simpa using h2, e, by simpa using h3, h4, h5⟩
        · intro j hj
          have := h (j + 1) (by omega)
          have harg : k + (j + 1) = k + 1 + j := by omega
          rwa [harg] at this

/-- If the first `j` fetches resolve non-terminal and the `j`-th throws,
the loop stops right there: `j + 1` fetches in total, outcome
`fetchFailed`, and the entry forced to `error` with the communication
message. -/
theorem pollGo_exn_at (get : Nat → FetchResult) (k : Nat)
    (entry : ProcessingStatus) (fuel j : Nat)
    (h1 : ∀ i, i < j → isNonTerminalOk (get (k + i)))
    (h2 : get (k + j) = FetchResult.exn) (h3 : j + 1 ≤ fuel) :
    (pollGo get k entry fuel).fetches = j + 1 ∧
    (pollGo get k entry fuel).outcome = PollOutcome.fetchFailed ∧
    ∃ e, (pollGo get k entry fuel).finalEntry = some e ∧
      e.status = Status.error ∧ e.message = pollErrorMessage := by
  induction j generalizing k entry fuel with
  | zero =>
    rw [Nat.add_zero] at h2
    rw [pollGo_exn h2]
    exact ⟨rfl, rfl, fetchErrorUpdate entry, rfl, rfl, rfl⟩
  | succ j ih =>
    have h0 := h1 0 (by omega)
    rw [Nat.add_zero] at h0
    cases hget : get k with
    | exn => rw [hget] at h0; exact absurd h0 (by simp [isNonTerminalOk])
    | ok s =>
      rw [hget] at h0
      obtain ⟨hr, he⟩ := h0
      match fuel, h3 with
      | Nat.succ (Nat.succ m), _ =>
        rw [pollGo_ok_cont hget hr he]
        have hrec := ih (k + 1) s (m + 1) ?_ ?_ (by omega)
        · obtain ⟨ha, hb, e, hc, hd, hm⟩ := hrec
          exact ⟨by simp [ha], by simpa using hb, e, by simpa using hc, hd, hm⟩
        · intro i hi
          have := h1 (i + 1) (by omega)
          have harg : k + (i + 1) = k + 1 + i := by omega
          rwa [harg] at this
        · have harg : k + (j + 1) = k + 1 + j := by omega
          rwa [harg] at h2

/-- If the first `j` fetches resolve non-terminal and the `j`-th resolves
with status `ready`, the loop ends on the success path: the `ready`
snapshot is the last value written, the entry is then held for the grace
period and removed, and the success callback is invoked exactly once. -/
theorem pollGo_ready_at (get : Nat → FetchResult) (k : Nat)
    (entry s : ProcessingStatus) (fuel j : Nat)
    (h1 : ∀ i, i < j → isNonTerminalOk (get (k + i)))
    (h2 : get (k + j) = FetchResult.ok s) (hs : s.status = Status.ready)
    (h3 : j + 1 ≤ fuel) :
    (pollGo get k entry fuel).outcome = PollOutcome.completedReady ∧
    (pollGo get k entry fuel).callbackCount = 1 ∧
    (pollGo get k entry fuel).graceDelay = some readyGracePeriod ∧
    (pollGo get k entry fuel).finalEntry = none ∧
    ∃ pre, (pollGo get k entry fuel).snapshots = pre ++ [s] := by
  induction j generalizing k entry fuel with
  | zero =>
    rw [Nat.add_zero] at h2
    rw [pollGo_ok_ready h2 hs]
    exact ⟨rfl, rfl, rfl, rfl, [], rfl⟩
  | succ j ih =>
    have h0 := h1 0 (by omega)
    rw [Nat.add_zero] at h0
    cases hget : get k with
    | exn => rw [hget] at h0; exact absurd h0 (by simp [isNonTerminalOk])
    | ok s' =>
      rw [hget] at h0
      obtain ⟨hr, he⟩ := h0
      match fuel, h3 with
      | Nat.succ (Nat.succ m), _ =>
        rw [pollGo_ok_cont hget hr he]
        have hrec := ih (k + 1) s' (m + 1) ?_ ?_ (by omega)
        · obtain ⟨ha, hb, hc, hd, pre, hpre⟩ := hrec
          refine ⟨by simpa using ha, by simpa using hb, by simpa using hc,
            by simpa using hd, s' :: pre, ?_⟩
          simp [hpre]
        · intro i hi
          have := h1 (i + 1) (by omega)
          have harg : k + (i + 1) = k + 1 + i := by omega
          rwa [harg] at this
        · have harg : k + (j + 1) = k + 1 + j := by omega
          rwa [harg] at h2

/-- If every resolved fetch carries a status in the `Document` status
domain (never `uploading`), the statuses written by the loop are a block
of `processing` followed by one terminal status. -/
theorem pollGo_snapshots_shape (get : Nat → FetchResult) (k : Nat)
    (entry : ProcessingStatus) (fuel : Nat)
    (hwf : ∀ i s, get i = FetchResult.ok s → s.status ≠ Status.uploading) :
    ∃ n t, (pollGo get k entry fuel).snapshots.map ProcessingStatus.status =
        List.replicate n Status.processing ++ [t] ∧
      (t = Status.ready ∨ t = Status.error) := by
  induction fuel using Nat.strong_induction_on generalizing k entry with
  | _ fuel ih =>
    cases hget : get k with
    | exn =>
      rw [pollGo_exn hget]
      exact ⟨0, Status.error, by simp [fetchErrorUpdate], Or.inr rfl⟩
    | ok s =>
      by_cases hr : s.status = Status.ready
      · rw [pollGo_ok_ready hget hr]
        exact ⟨0, Status.ready, by simp [hr], Or.inl rfl⟩
      · by_cases he : s.status = Status.error
        · rw [pollGo_ok_error hget he]
          exact ⟨0, Status.error, by simp [he], Or.inr rfl⟩
        · have hp : s.status = Status.processing := by
            have := hwf k s hget
            cases hst : s.status <;> simp_all
          match fuel with
          | 0 =>
            rw [pollGo, hget]
            simp only [hr, he, if_false]
            exact ⟨1, Status.error, by simp [hp, timeoutUpdate], Or.inr rfl⟩
          | 1 =>
            rw [pollGo_ok_timeout hget hr he]
            exact ⟨1, Status.error, by simp [hp, timeoutUpdate], Or.inr rfl⟩
          | Nat.succ (Nat.succ m) =>
            rw [pollGo_ok_cont hget hr he]
            obtain ⟨n, t, hshape, hterm⟩ := ih (m + 1) (by omega) (k + 1) s
            refine ⟨n + 1, t, ?_, hterm⟩
            simp [hshape, hp, List.replicate_succ]

/-- In a list made of non-terminal statuses followed by a single final
element, a terminal status can only sit in the last position. -/
theorem terminal_only_last (init : List Status) (t : Status) (pre : List Status)
    (x : Status) (suf : List Status)
    (hinit : ∀ y ∈ init, y ≠ Status.ready ∧ y ≠ Status.error)
    (hx : x = Status.ready ∨ x = Status.error)
    (heq : init ++ [t] = pre ++ x :: suf) : suf = [] := by
  induction pre generalizing init with
  | nil =>
    cases init with
    | nil =>
      simp only [List.nil_append, List.cons.injEq] at heq
      exact heq.2.symm
    | cons y ys =>
      simp only [List.cons_append, List.nil_append, List.cons.injEq] at heq
      have hy := hinit y (by simp)
      rcases hx with hx | hx <;> rw [heq.1, hx] at hy <;> simp at hy
  | cons p ps ih =>
    cases init with
    | nil =>
      simp only [List.nil_append, List.cons_append, List.cons.injEq] at heq
      exact absurd heq.2.symm (List.append_ne_nil_of_right_ne_nil ps (by simp))
    | cons y ys =>
      simp only [List.cons_append, List.cons.injEq] at heq
      exact ih ys (fun z hz => hinit z (by simp [hz])) heq.2

/-! ## Mapping lemmas -/

theorem lookupEntry_setEntry_same (m : UploadMap) (key : String)
    (v : ProcessingStatus) : lookupEntry (setEntry m key v) key = some v := by
  induction m with
  | nil => simp [setEntry, lookupEntry]
  | cons hd tl ih =>
    obtain ⟨k, w⟩ := hd
    by_cases hk : k = key <;> simp [setEntry, lookupEntry, hk, ih]

theorem lookupEntry_setEntry_ne (m : UploadMap) (k1 k2 : String)
    (v : ProcessingStatus) (h : k1 ≠ k2) :
    lookupEntry (setEntry m k1 v) k2 = lookupEntry m k2 := by
  induction m with
  | nil => simp [setEntry, lookupEntry, h]
  | cons hd tl ih =>
    obtain ⟨k, w⟩ := hd
    by_cases hk : k = k1
    · subst hk
      simp [setEntry, lookupEntry, h]
    · simp [setEntry, lookupEntry, hk, ih]

theorem lookupEntry_removeEntry_ne (m : UploadMap) (k1 k2 : String)
    (h : k1 ≠ k2) :
    lookupEntry (removeEntry m k1) k2 = lookupEntry m k2 := by
  induction m with
  | nil => simp [removeEntry, lookupEntry]
  | cons hd tl ih =>
    obtain ⟨k, w⟩ := hd
    by_cases hk : k = k1
    · subst hk
      simp [removeEntry, lookupEntry, h, ih]
    · simp [removeEntry, lookupEntry, hk, ih]

/-! ## Properties of the locally generated file id -/

theorem digitChar_inj {d e : Nat} (hd : d < 10) (he : e < 10)
    (h : digitChar d = digitChar e) : d = e := by
  interval_cases d <;> interval_cases e <;> revert h <;> decide

theorem digitChar_ne_hyphen {d : Nat} (hd : d < 10) : digitChar d ≠ '-' := by
  interval_cases d <;> decide

theorem natDecimal_ne_nil (n : Nat) : natDecimal n ≠ [] := by
  rw [natDecimal]
  split <;> simp

theorem mem_natDecimal {n : Nat} {c : Char} (hc : c ∈ natDecimal n) :
    ∃ d, d < 10 ∧ c = digitChar d := by
  induction n using Nat.strong_induction_on with
  | _ n ih =>
    rw [natDecimal] at hc
    split at hc
    · next h =>
      exact ⟨n, h, by simpa using hc⟩
    · next h =>
      rcases List.mem_append.mp hc with hc' | hc'
      · exact ih (n / 10) (Nat.div_lt_self (by omega) (by omega)) hc'
      · exact ⟨n % 10, Nat.mod_lt n (by omega), by simpa using hc'⟩

theorem hyphen_not_mem_natDecimal (n : Nat) : '-' ∉ natDecimal n := by
  intro h
  obtain ⟨d, hd, hc⟩ := mem_natDecimal h
  exact digitChar_ne_hyphen hd hc.symm

theorem natDecimal_small {n : Nat} (h : n < 10) :
    natDecimal n = [digitChar n] := by
  rw [natDecimal]
  simp [h]

theorem natDecimal_large {n : Nat} (h : ¬ n < 10) :
    natDecimal n = natDecimal (n / 10) ++ [digitChar (n % 10)] := by
  rw [natDecimal]
  simp [h]

theorem natDecimal_inj : ∀ {m n : Nat}, natDecimal m = natDecimal n → m = n := by
  intro m
  induction m using Nat.strong_induction_on with
  | _ m ih =>
    intro n h
    by_cases hm : m < 10 <;> by_cases hn : n < 10
    · rw [natDecimal_small hm, natDecimal_small hn] at h
      exact digitChar_inj hm hn (List.cons.inj h).1
    · rw [natDecimal_small hm, natDecimal_large hn] at h
      have hl := congrArg List.length h
      simp only [List.length_append, List.length_cons, List.length_nil] at hl
      have h0 : (natDecimal (n / 10)).length = 0 := by omega
      exact absurd (List.length_eq_zero.mp h0) (natDecimal_ne_nil _)
    · rw [natDecimal_large hm, natDecimal_small hn] at h
      have hl := congrArg List.length h
      simp only [List.length_append, List.length_cons, List.length_nil] at hl
      have h0 : (natDecimal (m / 10)).length = 0 := by omega
      exact absurd (List.length_eq_zero.mp h0) (natDecimal_ne_nil _)
    · rw [natDecimal_large hm, natDecimal_large hn] at h
      obtain ⟨h1, h2⟩ := List.append_inj' h (by simp)
      have e1 : m / 10 = n / 10 :=
        ih (m / 10) (Nat.div_lt_self (by omega) (by omega)) h1
      have e2 : m % 10 = n % 10 :=
        digitChar_inj (Nat.mod_lt m (by omega)) (Nat.mod_lt n (by omega))
          (by simpa using h2)
      omega

/-- Splitting a character list at a separator that does not occur in
either tail is unambiguous. -/
theorem append_sep_inj : ∀ (a1 a2 d1 d2 : List Char),
    '-' ∉ d1 → '-' ∉ d2 → a1 ++ '-' :: d1 = a2 ++ '-' :: d2 →
    a1 = a2 ∧ d1 = d2 := by
  intro a1
  induction a1 with
  | nil =>
    intro a2 d1 d2 h1 h2 heq
    cases a2 with
    | nil => simpa using heq
    | cons x2 t2 =>
      simp only [List.nil_append, List.cons_append, List.cons.injEq] at heq
      exact absurd (heq.2 ▸ List.mem_append_right t2 (by simp)) h1
  | cons x1 t1 ih =>
    intro a2 d1 d2 h1 h2 heq
    cases a2 with
    | nil =>
      simp only [List.nil_append, List.cons_append, List.cons.injEq] at heq
      exact absurd (heq.2.symm ▸ List.mem_append_right t1 (by simp)) h2
    | cons x2 t2 =>
      simp only [List.cons_append, List.cons.injEq] at heq
      obtain ⟨hx, hrest⟩ := heq
      obtain ⟨ha, hd⟩ := ih t2 d1 d2 h1 h2 hrest
      exact ⟨by rw [hx, ha], hd⟩

/-- The key `${name}-${timestamp}` determines both the file name and the
timestamp: distinct (name, timestamp) pairs get distinct keys. -/
theorem mkFileId_inj {n1 n2 : String} {t1 t2 : Nat}
    (h : mkFileId n1 t1 = mkFileId n2 t2) : n1 = n2 ∧ t1 = t2 := by
  have hdata := congrArg String.data h
  simp only [mkFileId, String.data_append] at hdata
  have hdata' : n1.data ++ '-' :: natDecimal t1 = n2.data ++ '-' :: natDecimal t2 := by
    simpa using hdata
  obtain ⟨ha, hd⟩ := append_sep_inj n1.data n2.data (natDecimal t1) (natDecimal t2)
    (hyphen_not_mem_natDecimal t1) (hyphen_not_mem_natDecimal t2) hdata'
  exact ⟨String.ext ha, natDecimal_inj hd⟩

/-- The success callback is never invoked more than once per run. -/
theorem pollGo_callback_le_one (get : Nat → FetchResult) (k : Nat)
    (entry : ProcessingStatus) (fuel : Nat) :
    (pollGo get k entry fuel).callbackCount ≤ 1 := by
  induction fuel using Nat.strong_induction_on generalizing k entry with
  | _ fuel ih =>
    cases hget : get k with
    | exn => rw [pollGo_exn hget]; exact Nat.zero_le 1
    | ok s =>
      by_cases hr : s.status = Status.ready
      · rw [pollGo_ok_ready hget hr]
      · by_cases he : s.status = Status.error
        · rw [pollGo_ok_error hget he]; exact Nat.zero_le 1
        · match fuel with
          | 0 =>
            rw [pollGo, hget]
            simp only [hr, he, if_false]
            exact Nat.zero_le 1
          | 1 =>
            rw [pollGo_ok_timeout hget hr he]; exact Nat.zero_le 1
          | Nat.succ (Nat.succ m) =>
            rw [pollGo_ok_cont hget hr he]
            simpa using ih (m + 1) (by omega) (k + 1) s

/-- The session list written by `deleteSession` is the filtered previous
list, whichever branch the current-session check takes. -/
theorem deleteSession_sessions (st : DashState) (sessionId : String) :
    (deleteSession st sessionId).sessions =
      st.sessions.filter (fun s => s.id != sessionId) := by
  rw [deleteSession]
  cases st.currentSession with
  | none => rfl
  | some cur => by_cases h : cur.id = sessionId <;> simp [h]

/-! ## Claims -/

/-- C1: For every upload, the status-polling loop performs at most 60
status fetches for the document id; after the 60th fetch that returns a
non-terminal status, the local entry's status is set to `error` with a
timeout message, and the loop never runs unbounded. -/
theorem claim_C1_poll_bounded (get : Nat → FetchResult)
    (entry : ProcessingStatus) :
    (pollLoop get entry).fetches ≤ maxAttempts ∧
    ((∀ k, k < maxAttempts → isNonTerminalOk (get k)) →
      (pollLoop get entry).fetches = maxAttempts ∧
      (pollLoop get entry).outcome = PollOutcome.timedOut ∧
      ∃ e, (pollLoop get entry).finalEntry = some e ∧
        e.status = Status.error ∧ e.message = timeoutMessage) := by
  constructor
  · exact pollGo_fetches_le get 0 entry maxAttempts (by norm_num [maxAttempts])
  · intro h
    exact pollGo_all_nonTerminal get 0 entry maxAttempts
      (by norm_num [maxAttempts])
      (fun j hj => by rw [Nat.zero_add]; exact h j hj)

/-- Witness for C1 on a server that always reports `processing`. -/
theorem claim_C1_witness :
    (pollLoop demoGetAlwaysProcessing demoProcessing).fetches = maxAttempts ∧
    (pollLoop demoGetAlwaysProcessing demoProcessing).outcome =
      PollOutcome.timedOut := by
  have h := (claim_C1_poll_bounded demoGetAlwaysProcessing demoProcessing).2
    (by intro k hk
        simp [demoGetAlwaysProcessing, isNonTerminalOk, demoProcessing])
  exact ⟨h.1, h.2.1⟩

/-- C6: Within one upload's poll loop, if a status fetch throws an
exception, the loop terminates early with the entry's status set to
`error`, and the failed fetch is never automatically re-attempted (the
total fetch count is exactly the failed attempt's index plus one). -/
theorem claim_C6_fetch_exception_stops (get : Nat → FetchResult)
    (entry : ProcessingStatus) (j : Nat)
    (h1 : ∀ i, i < j → isNonTerminalOk (get i))
    (h2 : get j = FetchResult.exn) (h3 : j < maxAttempts) :
    (pollLoop get entry).fetches = j + 1 ∧
    (pollLoop get entry).outcome = PollOutcome.fetchFailed ∧
    ∃ e, (pollLoop get entry).finalEntry = some e ∧
      e.status = Status.error ∧ e.message = pollErrorMessage := by
  apply pollGo_exn_at get 0 entry maxAttempts j
  · intro i hi
    rw [Nat.zero_add]
    exact h1 i hi
  · rw [Nat.zero_add]
    exact h2
  · omega

/-- Witness for C6: the very first fetch throws. -/
theorem claim_C6_witness :
    (pollLoop demoGetExnAt0 demoProcessing).fetches = 1 ∧
    (pollLoop demoGetExnAt0 demoProcessing).outcome =
      PollOutcome.fetchFailed := by
  have h := claim_C6_fetch_exception_stops demoGetExnAt0 demoProcessing 0
    (by intro i hi; omega) rfl (by norm_num [maxAttempts])
  exact ⟨h.1, h.2.1⟩

/-- C7: When a poll fetch returns status `ready`, the entry stays
visible in the pending-uploads mapping (the `ready` snapshot is the last
value written) for a grace period of 3 time units, after which it is
removed from the mapping and the caller-supplied success callback is
invoked exactly once. -/
theorem claim_C7_ready_grace (get : Nat → FetchResult)
    (entry s : ProcessingStatus) (j : Nat)
    (h1 : ∀ i, i < j → isNonTerminalOk (get i))
    (h2 : get j = FetchResult.ok s) (hs : s.status = Status.ready)
    (h3 : j < maxAttempts) :
    (pollLoop get entry).outcome = PollOutcome.completedReady ∧
    (pollLoop get entry).graceDelay = some readyGracePeriod ∧
    (pollLoop get entry).callbackCount = 1 ∧
    (pollLoop get entry).finalEntry = none ∧
    ∃ pre, (pollLoop get entry).snapshots = pre ++ [s] := by
  have h := pollGo_ready_at get 0 entry s maxAttempts j
    (fun i hi => by rw [Nat.zero_add]; exact h1 i hi)
    (by rw [Nat.zero_add]; exact h2) hs (by omega)
  exact ⟨h.1, h.2.2.1, h.2.1, h.2.2.2.1, h.2.2.2.2⟩

/-- Witness for C7: `processing` once, then `ready` on the second poll. -/
theorem claim_C7_witness :
    (pollLoop demoGetReadyAt1 demoProcessing).callbackCount = 1 ∧
    (pollLoop demoGetReadyAt1 demoProcessing).graceDelay =
      some readyGracePeriod ∧
    (pollLoop demoGetReadyAt1 demoProcessing).finalEntry = none := by
  have h := claim_C7_ready_grace demoGetReadyAt1 demoProcessing demoReady 1
    (by intro i hi
        have hi0 : i = 0 := by omega
        subst hi0
        simp [demoGetReadyAt1, isNonTerminalOk, demoProcessing])
    (by simp [demoGetReadyAt1]) rfl (by norm_num [maxAttempts])
  exact ⟨h.2.2.1, h.2.1, h.2.2.2.1⟩

/-- C2: For every upload whose fetched statuses range over the
`Document` status domain, the sequence of status values observed in the
local upload-status mapping is `uploading`, a (possibly empty) block of
`processing`, then a single terminal `ready` or `error` — a subsequence
of (uploading, processing, ready) or (uploading, processing, error) with
no regression — and `ready` / `error` are absorbing: whenever a terminal
status appears in the trace, nothing is observed after it. -/
theorem claim_C2_status_monotone (fileId : String) (up : UploadResult)
    (get : Nat → FetchResult) (hwf : responsesWellFormed get) :
    (∃ n, statusTrace fileId up get =
        Status.uploading :: (List.replicate n Status.processing ++ [Status.ready]) ∨
      statusTrace fileId up get =
        Status.uploading :: (List.replicate n Status.processing ++ [Status.error])) ∧
    (∀ pre x suf, statusTrace fileId up get = pre ++ x :: suf →
      (x = Status.ready ∨ x = Status.error) → suf = []) := by
  have key : ∃ n t, statusTrace fileId up get =
      Status.uploading :: (List.replicate n Status.processing ++ [t]) ∧
      (t = Status.ready ∨ t = Status.error) := by
    cases up with
    | failed msg =>
      refine ⟨0, Status.error, ?_, Or.inr rfl⟩
      simp [statusTrace, uploadTrace, uploadInitEntry, uploadErrorEntry]
    | accepted docId msg =>
      obtain ⟨n, t, hshape, hterm⟩ :=
        pollGo_snapshots_shape get 0 (processingEntry docId msg) maxAttempts hwf
      refine ⟨n + 1, t, ?_, hterm⟩
      simp only [statusTrace, uploadTrace, List.map_cons, pollLoop]
      rw [hshape]
      simp [uploadInitEntry, processingEntry, List.replicate_succ]
  obtain ⟨n, t, htr, hterm⟩ := key
  constructor
  · rcases hterm with rfl | rfl
    · exact ⟨n, Or.inl htr⟩
    · exact ⟨n, Or.inr htr⟩
  · intro pre x suf heq hx
    apply terminal_only_last (Status.uploading :: List.replicate n Status.processing)
      t pre x suf ?_ hx ?_
    · intro y hy
      simp only [List.mem_cons, List.mem_replicate] at hy
      rcases hy with rfl | ⟨-, rfl⟩ <;> simp
    · rw [List.cons_append, ← htr]
      exact heq

/-- Witness for C2: upload accepted, one `processing` poll, then
`ready`. -/
theorem claim_C2_witness :
    (∃ n, statusTrace "rapport.pdf-1714000000000"
        (UploadResult.accepted "doc123" "Upload accepté") demoGetReadyAt1 =
        Status.uploading :: (List.replicate n Status.processing ++ [Status.ready]) ∨
      statusTrace "rapport.pdf-1714000000000"
        (UploadResult.accepted "doc123" "Upload accepté") demoGetReadyAt1 =
        Status.uploading :: (List.replicate n Status.processing ++ [Status.error])) := by
  have h := claim_C2_status_monotone "rapport.pdf-1714000000000"
    (UploadResult.accepted "doc123" "Upload accepté") demoGetReadyAt1
    (by intro i s hi
        rw [demoGetReadyAt1] at hi
        split at hi <;>
          (injection hi with hi'
           rw [← hi']
           simp [demoProcessing, demoReady]))
  exact h.1

/-- C3 counterexample: `createNewChat` does not refetch the session
list — it prepends the created session to the local list.  With a stale
client (empty local list) while the server also holds `sessionAlpha`, a
fresh full fetch right after the create returns
`[sessionBeta, sessionAlpha]`, but the client list is `[sessionBeta]`:
the lists differ, so the claimed equality with a fresh fetch fails. -/
theorem claim_C3_counterexample :
    sessionBeta ∈ freshFetchAfterCreate ∧
    (createNewChat demoDashStale sessionBeta).sessions ≠ freshFetchAfterCreate := by
  constructor
  · simp [freshFetchAfterCreate]
  · intro h
    have := congrArg List.length h
    simp [createNewChat, demoDashStale, freshFetchAfterCreate] at this

/-- C3 amended: after a create mutation the client session list is the
created session prepended to the previous local list (an optimistic
local merge, not a refetch); after a delete mutation it is the previous
local list with exactly the sessions carrying the deleted id removed, in
order (again a local merge); only the document list is replaced
wholesale by the result of a fresh fetch (`loadDocuments`, invoked after
document mutations). -/
theorem claim_C3_amended (st : DashState) (newSession : ChatSession)
    (sessionId : String) (fetched : List Document) :
    (createNewChat st newSession).sessions = newSession :: st.sessions ∧
    (∀ s, s ∈ (deleteSession st sessionId).sessions ↔
      s ∈ st.sessions ∧ s.id ≠ sessionId) ∧
    (deleteSession st sessionId).sessions.Sublist st.sessions ∧
    (loadDocuments st fetched).documents = fetched := by
  refine ⟨rfl, ?_, ?_, rfl⟩
  · intro s
    rw [deleteSession_sessions, List.mem_filter, bne_iff_ne]
  · rw [deleteSession_sessions]
    exact List.filter_sublist _

/-- C4 counterexample: the local key is `${file.name}-${Date.now()}`,
so two distinct files with the same name uploaded in the same
`forEach` tick (same millisecond) receive the same key; the later
response for file B's document id then overwrites the mapping entry
belonging to file A. -/
theorem claim_C4_counterexample :
    fileDocA ≠ fileDocB ∧
    mkFileId fileDocA.name demoTimestamp = mkFileId fileDocB.name demoTimestamp ∧
    lookupEntry
      (setEntry (setEntry [] (mkFileId fileDocA.name demoTimestamp) entryDocA)
        (mkFileId fileDocB.name demoTimestamp) entryDocB)
      (mkFileId fileDocA.name demoTimestamp) = some entryDocB ∧
    entryDocB ≠ entryDocA := by
  refine ⟨by decide, rfl, ?_, by decide⟩
  exact lookupEntry_setEntry_same _ _ _

/-- C4 amended: two concurrently uploaded files whose (filename,
timestamp) pairs differ are tracked under distinct locally generated
keys, and for distinct keys a delayed or failed response for one file's
document id never modifies the mapping entry belonging to the other
file: writing or deleting under one key leaves every other key's entry
unchanged. -/
theorem claim_C4_amended (name1 name2 : String) (t1 t2 : Nat)
    (m : UploadMap) (k1 k2 : String) (v : ProcessingStatus)
    (hne : name1 ≠ name2 ∨ t1 ≠ t2) (hk : k1 ≠ k2) :
    mkFileId name1 t1 ≠ mkFileId name2 t2 ∧
    lookupEntry (setEntry m k1 v) k2 = lookupEntry m k2 ∧
    lookupEntry (removeEntry m k1) k2 = lookupEntry m k2 := by
  refine ⟨?_, lookupEntry_setEntry_ne m k1 k2 v hk,
    lookupEntry_removeEntry_ne m k1 k2 hk⟩
  intro h
  obtain ⟨hn, ht⟩ := mkFileId_inj h
  rcases hne with hne | hne <;> exact hne (by assumption)

/-- Witness for the amended C4 at concrete names, timestamps and keys. -/
theorem claim_C4_witness :
    mkFileId "audit.pdf" 5 ≠ mkFileId "rgpd.docx" 5 ∧
    lookupEntry (setEntry [] "audit.pdf-5" demoProcessing) "rgpd.docx-5" =
      lookupEntry [] "rgpd.docx-5" ∧
    lookupEntry (removeEntry [] "audit.pdf-5") "rgpd.docx-5" =
      lookupEntry [] "rgpd.docx-5" :=
  claim_C4_amended "audit.pdf" "rgpd.docx" 5 5 [] "audit.pdf-5" "rgpd.docx-5"
    demoProcessing (Or.inl (by decide)) (by decide)

/-- C5: Deleting a chat session removes it from the session list (every
remaining session has a different id, and every session with a different
id is retained), and if the deleted session was the currently active
session, the current-session state is reset to `none` and the
message-list state is reset to empty. -/
theorem claim_C5_delete_active_session (st : DashState) (sessionId : String)
    (cur : ChatSession) (hcur : st.currentSession = some cur)
    (hid : cur.id = sessionId) :
    (∀ s ∈ (deleteSession st sessionId).sessions, s.id ≠ sessionId) ∧
    (∀ s ∈ st.sessions, s.id ≠ sessionId →
      s ∈ (deleteSession st sessionId).sessions) ∧
    (deleteSession st sessionId).currentSession = none ∧
    (deleteSession st sessionId).messages = [] := by
  refine ⟨?_, ?_, ?_, ?_⟩
  · intro s hs
    rw [deleteSession_sessions, List.mem_filter, bne_iff_ne] at hs
    exact hs.2
  · intro s hs hne
    rw [deleteSession_sessions, List.mem_filter, bne_iff_ne]
    exact ⟨hs, hne⟩
  · rw [deleteSession, hcur]
    simp [hid]
  · rw [deleteSession, hcur]
    simp [hid]

/-- Witness for C5: deleting the open session `sessionAlpha`. -/
theorem claim_C5_witness :
    (deleteSession demoDashActive "s-alpha").currentSession = none ∧
    (deleteSession demoDashActive "s-alpha").messages = [] := by
  have h := claim_C5_delete_active_session demoDashActive "s-alpha"
    sessionAlpha rfl rfl
  exact ⟨h.2.2.1, h.2.2.2⟩

/-- C8: In the poll loop's timeout and fetch-exception transitions the
entry is rebuilt by spreading the previous snapshot and overriding only
`status` and `message`: `document_id`, `filename` and `metadata` are
preserved from the previous snapshot, while `status` becomes `error` and
`message` the respective fixed text. -/
theorem claim_C8_partial_update_frame (prev : ProcessingStatus) :
    (timeoutUpdate prev).document_id = prev.document_id ∧
    (timeoutUpdate prev).filename = prev.filename ∧
    (timeoutUpdate prev).metadata = prev.metadata ∧
    (timeoutUpdate prev).status = Status.error ∧
    (timeoutUpdate prev).message = timeoutMessage ∧
    (fetchErrorUpdate prev).document_id = prev.document_id ∧
    (fetchErrorUpdate prev).filename = prev.filename ∧
    (fetchErrorUpdate prev).metadata = prev.metadata ∧
    (fetchErrorUpdate prev).status = Status.error ∧
    (fetchErrorUpdate prev).message = pollErrorMessage :=
  ⟨rfl, rfl, rfl, rfl, rfl, rfl, rfl, rfl, rfl, rfl⟩

/-- C9: For every confirmed document-delete in the personal document
list, the document id is in the in-flight deleting set while the API
call runs, is absent from the set after the `finally` block whether the
call succeeded or threw, and every other id's membership is unchanged —
no id remains permanently in the deleting set after its delete
finishes. -/
theorem claim_C9_deleting_set (deleting0 : List String)
    (documentId : String) (outcome : ApiOutcome) :
    documentId ∈ (handleDelete true deleting0 documentId outcome).duringCall ∧
    documentId ∉ (handleDelete true deleting0 documentId outcome).finalSet ∧
    ∀ x, x ≠ documentId →
      (x ∈ (handleDelete true deleting0 documentId outcome).finalSet ↔
        x ∈ deleting0) := by
  refine ⟨?_, ?_, ?_⟩
  · by_cases h0 : documentId ∈ deleting0 <;> simp [handleDelete, setAdd, h0]
  · intro h
    simp only [handleDelete, if_true] at h
    rw [setRemove, List.mem_filter, bne_iff_ne] at h
    exact h.2 rfl
  · intro x hx
    simp only [handleDelete, if_true]
    rw [setRemove, List.mem_filter, bne_iff_ne]
    constructor
    · rintro ⟨hmem, -⟩
      rw [setAdd] at hmem
      split at hmem
      · exact hmem
      · rcases List.mem_append.mp hmem with h | h
        · exact h
        · exact absurd (by simpa using h) hx
    · intro hmem
      refine ⟨?_, hx⟩
      rw [setAdd]
      split
      · exact hmem
      · exact List.mem_append_left _ hmem

/-- Witness for C9 on a failing delete call. -/
theorem claim_C9_witness :
    "doc-1" ∈ (handleDelete true ["doc-9"] "doc-1" ApiOutcome.failure).duringCall ∧
    "doc-1" ∉ (handleDelete true ["doc-9"] "doc-1" ApiOutcome.failure).finalSet ∧
    ("doc-9" ∈ (handleDelete true ["doc-9"] "doc-1" ApiOutcome.failure).finalSet ↔
      "doc-9" ∈ ["doc-9"]) := by
  have h := claim_C9_deleting_set ["doc-9"] "doc-1" ApiOutcome.failure
  exact ⟨h.1, h.2.1, h.2.2 "doc-9" (by decide)⟩

/-- C10: For every session list and search term, the sidebar's filtered
session list contains exactly those sessions whose title or preview
contains the search term case-insensitively, in the same relative order
as the input list (it is a sublist of the input), and with an empty
search term every session is included. -/
theorem claim_C10_filtered_sessions (sessions : List ChatSession)
    (searchTerm : String) :
    (∀ s, s ∈ filteredSessions sessions searchTerm ↔
      s ∈ sessions ∧ (containsCI s.title searchTerm = true ∨
        ∃ p, s.preview = some p ∧ containsCI p searchTerm = true)) ∧
    (filteredSessions sessions searchTerm).Sublist sessions ∧
    (searchTerm = "" → filteredSessions sessions searchTerm = sessions) := by
  have hms : ∀ s : ChatSession, matchesSearch searchTerm s = true ↔
      (containsCI s.title searchTerm = true ∨
        ∃ p, s.preview = some p ∧ containsCI p searchTerm = true) := by
    intro s
    rw [matchesSearch, Bool.or_eq_true]
    cases hp : s.preview with
    | none => simp [hp]
    | some p => simp [hp]
  refine ⟨?_, List.filter_sublist _, ?_⟩
  · intro s
    rw [filteredSessions, List.mem_filter, hms s]
  · intro h
    subst h
    rw [filteredSessions]
    apply List.filter_eq_self.mpr
    intro s hs
    have hc : ∀ a : String, containsCI a "" = true := by
      intro a
      rw [containsCI]
      show strContains (toLowerCase a).data [] = true
      rw [strContains.eq_def]
      simp [List.isPrefixOf]
    rw [matchesSearch, hc]
    simp

/-- Witness for C10: the empty search term keeps both demo sessions. -/
theorem claim_C10_witness :
    filteredSessions [sessionAlpha, sessionBeta] "" = [sessionAlpha, sessionBeta] :=
  (claim_C10_filtered_sessions [sessionAlpha, sessionBeta] "").2.2 rfl

end DocuSense
